import Mathlib

/-
Verification development for the 0X1907-site repository.

JavaScript strings are modelled as `List Char`.  Each definition below
mirrors one function of the repository source (the RSS generation script
embedded in the corpus, the `ContentBlock` data model, and the route
resolution in `src/pages/Index.tsx`); the doc comments name the source
symbol each definition embeds.
-/

/-- JavaScript `String.prototype.trim`, on the char-list model of strings. -/
def trim (s : List Char) : List Char :=
  ((s.dropWhile Char.isWhitespace).reverse.dropWhile Char.isWhitespace).reverse

/-- JavaScript `String.prototype.split` with a one-character separator. -/
def splitOnChar (sep : Char) : List Char → List (List Char)
  | [] => [[]]
  | c :: rest =>
    if c = sep then [] :: splitOnChar sep rest
    else
      match splitOnChar sep rest with
      | [] => [[c]]
      | r :: rs => (c :: r) :: rs

/-- Leftmost occurrence of `pat` in `s`: `findSub pat s = some (pre, post)`
splits `s` as `pre ++ pat ++ post` at the first occurrence of `pat`.  This is
the search performed by the lazy groups of the front-matter regexes used by
the RSS script. -/
def findSub (pat : List Char) : List Char → Option (List Char × List Char)
  | [] => if pat.isPrefixOf [] then some ([], []) else none
  | c :: rest =>
    if pat.isPrefixOf (c :: rest) then some ([], (c :: rest).drop pat.length)
    else (findSub pat rest).map (fun pr => (c :: pr.1, pr.2))

/-- The `PostMeta` interface of the RSS generation script. -/
structure PostMeta where
  id : List Char
  title : List Char
  category : List Char
  date : Option (List Char)
  tags : Option (List (List Char))
deriving DecidableEq, Repr

/-- One header line of `parseFrontMatter`: `line.indexOf(':')`, slice the key
and the value around the first colon, trim both; `none` when the line
contains no colon. -/
def parseLine (line : List Char) : Option (List Char × List Char) :=
  if line.contains ':' then
    let pre := line.takeWhile (fun c => c != ':')
    some (trim pre, trim (line.drop (pre.length + 1)))
  else none

/-- JavaScript object assignment `frontMatter[key] = value` (overwrite the
binding if the key is present, append it otherwise). -/
def fmInsert : List (List Char × List Char) → List Char × List Char → List (List Char × List Char)
  | [], kv => [kv]
  | (k', v') :: rest, kv => if k' = kv.1 then kv :: rest else (k', v') :: fmInsert rest kv

/-- One step of the `forEach` loop of `parseFrontMatter`. -/
def fmStep (m : List (List Char × List Char)) (line : List Char) : List (List Char × List Char) :=
  match parseLine line with
  | some kv => fmInsert m kv
  | none => m

/-- The `forEach` loop of `parseFrontMatter` over the captured header lines. -/
def buildFM (lines : List (List Char)) : List (List Char × List Char) :=
  lines.foldl fmStep []

/-- `parseFrontMatter` from the RSS script: match the anchored lazy regex
(open delimiter `---` + newline, lazily captured header, newline + `---`),
parse each captured line at its first colon, and read out the five known
keys (`|| ''` on `id`/`title`/`category`, `?.split(',').map(trim)` on
`tags`). -/
def parseFrontMatter (content : List Char) : Option PostMeta :=
  if ("---\n".toList).isPrefixOf content then
    match findSub ("\n---".toList) (content.drop 4) with
    | some pr =>
      let fm := buildFM (splitOnChar '\n' pr.1)
      some ⟨(List.lookup ("id".toList) fm).getD [],
            (List.lookup ("title".toList) fm).getD [],
            (List.lookup ("category".toList) fm).getD [],
            List.lookup ("date".toList) fm,
            (List.lookup ("tags".toList) fm).map (fun v => (splitOnChar ',' v).map trim)⟩
    | none => none
  else none

/-- The front-matter removal step of `getExcerpt`: the substitution
`content.replace(/^---[\s\S]*?---\n/, '')` (open `---`, lazily skipped
region, first following `---` + newline). -/
def stripFM (content : List Char) : List Char :=
  if ("---".toList).isPrefixOf content then
    match findSub ("---\n".toList) (content.drop 3) with
    | some pr => pr.2
    | none => content
  else content

/-- JavaScript `String.prototype.split('\n\n')`: left-to-right scan splitting
at each non-overlapping occurrence of a blank-line separator. -/
def splitNN : List Char → List (List Char)
  | [] => [[]]
  | '\n' :: '\n' :: rest => [] :: splitNN rest
  | c :: rest =>
    match splitNN rest with
    | [] => [[c]]
    | r :: rs => (c :: r) :: rs

/-- The paragraph filter of `getExcerpt`:
`p.trim() && !p.startsWith('#') && !p.startsWith('!')`. -/
def isExcerptPara (p : List Char) : Bool :=
  !(trim p).isEmpty && !(p.head? == some '#') && !(p.head? == some '!')

/-- One of the five characters removed by `replace(/[#*`\[\]]/g, '')`
(`Char.ofNat 96` is the backquote, U+0060). -/
def isMarkupChar (c : Char) : Bool :=
  c = '#' || c = '*' || c = Char.ofNat 96 || c = '[' || c = ']'

/-- The global substitution `replace(/[#*`\[\]]/g, '')` of `getExcerpt`. -/
def stripMarkup (s : List Char) : List Char :=
  s.filter (fun c => !isMarkupChar c)

/-- JavaScript `s || ''` for a string `s`: the empty string is falsy, every
other string is returned unchanged. -/
def jsOrEmpty (s : List Char) : List Char :=
  if s.isEmpty then [] else s

/-- The excerpt computation of `getExcerpt` applied to the post-substitution
body: find the first qualifying blank-line-separated segment, slice it to 200
characters, strip markup characters, append `'...'`.  When no segment
qualifies, JavaScript evaluates `undefined + '...'` to the string
`"undefined..."`; the final `|| ''` then sees a non-empty string. -/
def excerptOfBody (b : List Char) : List Char :=
  jsOrEmpty ((match (splitNN b).find? isExcerptPara with
    | some p => stripMarkup (p.take 200)
    | none => "undefined".toList) ++ "...".toList)

/-- `getExcerpt` from the RSS script. -/
def getExcerpt (content : List Char) : List Char :=
  excerptOfBody (stripFM content)

/-- One global single-character substitution `s.replace(/c/g, rep)`: each
occurrence of `c` in the scanned input is replaced by `rep`; replacements are
not rescanned. -/
def replaceChar (pat : Char) (rep : List Char) (s : List Char) : List Char :=
  (s.map (fun c => if c = pat then rep else [c])).flatten

/-- `escapeXml` from the RSS script: five chained global substitutions, the
ampersand first (`Char.ofNat 39` is the apostrophe, U+0027). -/
def escapeXml (s : List Char) : List Char :=
  replaceChar (Char.ofNat 39) ("&apos;".toList)
    (replaceChar '"' ("&quot;".toList)
      (replaceChar '>' ("&gt;".toList)
        (replaceChar '<' ("&lt;".toList)
          (replaceChar '&' ("&amp;".toList) s))))

/-- Per-character escaping as described by the claim: each of the five XML
special characters maps to its entity, every other character is kept. -/
def escChar (c : Char) : List Char :=
  if c = '&' then "&amp;".toList
  else if c = '<' then "&lt;".toList
  else if c = '>' then "&gt;".toList
  else if c = '"' then "&quot;".toList
  else if c = Char.ofNat 39 then "&apos;".toList
  else [c]

/-- The claim-side description of `escapeXml`: one pass, character by
character, never rescanning a replacement. -/
def escapeXmlSpec (s : List Char) : List Char :=
  (s.map escChar).flatten

/-- One post record of `generateRSS`: the parsed metadata paired with the
derived excerpt. -/
abbrev RssPost : Type := PostMeta × List Char

/-- The document loop of `generateRSS`: parse each file, keep a post exactly
when `parseFrontMatter` returned a (non-null) record, pair it with the
excerpt of the same content. -/
def collectPosts (docs : List (List Char)) : List RssPost :=
  docs.filterMap (fun c => (parseFrontMatter c).map (fun m => (m, getExcerpt c)))

/-- JavaScript truthiness of `post.date`: present and non-empty. -/
def hasDate (p : PostMeta) : Bool :=
  match p.date with
  | none => false
  | some d => !d.isEmpty

/-- The sort comparator of `generateRSS`: `0` when either date is falsy,
otherwise the difference of the parsed timestamps, newest first.  Date
parsing (`new Date(s).getTime()`) is abstracted by `getTime`. -/
def rssCompare (getTime : List Char → Int) (a b : RssPost) : Int :=
  if hasDate a.1 && hasDate b.1 then
    getTime (b.1.date.getD []) - getTime (a.1.date.getD [])
  else 0

/-- Stable insertion of one element according to a JavaScript-style
comparator (negative means "goes before"). -/
def sortInsert {α : Type} (cmp : α → α → Int) (x : α) : List α → List α
  | [] => [x]
  | y :: ys => if cmp x y < 0 then x :: y :: ys else y :: sortInsert cmp x ys

/-- A comparator-respecting sort, the behaviour ECMAScript guarantees for
`Array.prototype.sort` under a consistent comparator. -/
def sortByCmp {α : Type} (cmp : α → α → Int) : List α → List α
  | [] => []
  | x :: xs => sortInsert cmp x (sortByCmp cmp xs)

/-- The `posts.sort(...)` step of `generateRSS`; the RSS `<item>` elements
are then emitted by mapping over this list in order. -/
def rssSortPosts (getTime : List Char → Int) (posts : List RssPost) : List RssPost :=
  sortByCmp (rssCompare getTime) posts

/-- The `ContentBlock` interface of the repository's content data model
(`src/data/blogPosts.ts`): one variant tag plus optional kind-specific
fields, absent fields modelled as `none`. -/
structure ContentBlock where
  type : List Char
  content : Option (List Char)
  level : Option Nat
  language : Option (List Char)
  filename : Option (List Char)
  items : Option (List (List Char))
  alt : Option (List Char)
  caption : Option (List Char)
  tableHeaders : Option (List (List Char))
  tableRows : Option (List (List (List Char)))
  calloutVariant : Option (List Char)
  calloutTitle : Option (List Char)
deriving DecidableEq, Repr

/-- A `ContentBlock` with only the tag set. -/
def mkBlock (tag : List Char) : ContentBlock :=
  ⟨tag, none, none, none, none, none, none, none, none, none, none, none⟩

/-- A divider line: only repeated dashes, three or more. -/
def isDividerLine (line : List Char) : Bool :=
  decide (3 ≤ line.length) && line.all (fun c => c = '-')

/-- The count of leading `#` characters of a line. -/
def leadHashes (line : List Char) : Nat :=
  (line.takeWhile (fun c => c = '#')).length

/-- Modelled from the spec: the repository's Markdown block classifier
(`src/lib/markdown.ts`) is not among the provided sources, only its
`ContentBlock` output type and its callers are.  This models the line-level
rules of spec section 4.2 that decide the `level` field: a divider line of
three or more dashes; a line opened by one to three `#` characters followed
by a space becomes a heading whose level is the clamped hash count; any
other line falls back to a paragraph, so a line of four or more `#`
characters never yields a `level`. -/
def classifyLine (line : List Char) : ContentBlock :=
  if isDividerLine line then mkBlock ("divider".toList)
  else if decide (1 ≤ leadHashes line) && decide (leadHashes line ≤ 3) &&
      ((line.drop (leadHashes line)).head? == some ' ') then
    { mkBlock ("heading".toList) with
        content := some (trim (line.drop (leadHashes line + 1))),
        level := some (min (leadHashes line) 3) }
  else
    { mkBlock ("paragraph".toList) with content := some (trim line) }

/-- The route-resolution state of `src/pages/Index.tsx` that the metadata
effect updates: the active post id and the `notFound` flag. -/
structure IndexState where
  activePostId : List Char
  notFound : Bool
deriving DecidableEq, Repr

/-- The metadata effect of `Index` (`src/pages/Index.tsx`, the body of
`loadMetadata` after `loadPostsMetadata()` resolved): with a route `postId`,
set the active post and clear `notFound` when some metadata entry carries
that id, otherwise set `notFound`; without a route id, activate the first
post when one exists. -/
def indexMetadataLoad (metadata : List PostMeta) (postId : Option (List Char))
    (st : IndexState) : IndexState :=
  match postId with
  | some pid =>
    if metadata.any (fun p => p.id == pid) then ⟨pid, false⟩
    else ⟨st.activePostId, true⟩
  | none =>
    match metadata with
    | m :: _ => ⟨m.id, false⟩
    | [] => st

/-- The render guard of `Index`: the 404 branch is taken exactly when
`notFound` is set. -/
def renders404 (st : IndexState) : Bool :=
  st.notFound

/-- Modelled from the spec: `loadPostById` of `src/lib/markdown.ts` is not
among the provided sources.  Per spec section 4.5 it returns the post for
exactly one document or signals "not found" as a typed absence; absence is
the `none` of an `Option`, produced by a lookup over the loaded records. -/
def loadPostById (posts : List PostMeta) (pid : List Char) : Option PostMeta :=
  posts.find? (fun p => p.id == pid)

/-- Proof-side invariant about newline placement: every newline occurring in
the list is immediately followed, inside the list, by a character other than
a dash, so the closing-delimiter pattern `"\n---"` cannot begin inside it. -/
def nlOk : List Char → Bool
  | [] => true
  | c :: rest =>
    if c = '\n' then
      match rest with
      | [] => false
      | d :: _ => (d != '-') && nlOk rest
    else nlOk rest

/-- The five-line front-matter header of a well-formed document: one
`key: value` line per known key, lines joined by newlines. -/
def fmHeader (vid vtitle vcat vdate vtags : List Char) : List Char :=
  ("id: ".toList ++ vid) ++ '\n' ::
    (("title: ".toList ++ vtitle) ++ '\n' ::
      (("category: ".toList ++ vcat) ++ '\n' ::
        (("date: ".toList ++ vdate) ++ '\n' ::
          ("tags: ".toList ++ vtags))))

/-- A document that declares all five known front-matter fields, followed by
a body (the body as written includes the newline after the closing `---`). -/
def mkDoc (vid vtitle vcat vdate vtags body : List Char) : List Char :=
  "---\n".toList ++ (fmHeader vid vtitle vcat vdate vtags ++
    ("\n---".toList ++ body))

/-! ## Helper lemmas -/

theorem eqFalse_ne_true {b : Bool} (h : b = false) : ¬(b = true) := by
  intro hh
  rw [h] at hh
  exact Bool.false_ne_true hh

theorem isPrefixOf_append_self (l t : List Char) :
    l.isPrefixOf (l ++ t) = true := by
  induction l with
  | nil =>
    cases t with
    | nil => rfl
    | cons c cs => rfl
  | cons c cs ih => simp [List.isPrefixOf, ih]

theorem noNL_chunk (lit v : List Char) (hlit : '\n' ∉ lit) (hv : '\n' ∉ v) :
    '\n' ∉ (lit ++ v) := by
  intro hm
  rcases List.mem_append.mp hm with h | h
  · exact hlit h
  · exact hv h

theorem nlOk_append_noNL (a b : List Char) (h : '\n' ∉ a) :
    nlOk (a ++ b) = nlOk b := by
  induction a with
  | nil => rfl
  | cons c t ih =>
    have hc : c ≠ '\n' := fun hh => h (hh ▸ List.mem_cons_self _ _)
    have ht : '\n' ∉ t := fun hm => h (List.mem_cons_of_mem _ hm)
    show nlOk (c :: (t ++ b)) = nlOk b
    simp only [nlOk]
    rw [if_neg hc]
    exact ih ht

theorem nlOk_of_noNL (a : List Char) (h : '\n' ∉ a) : nlOk a = true := by
  have hh := nlOk_append_noNL a [] h
  rwa [List.append_nil] at hh

theorem nlOk_nl_cons (d : Char) (rest : List Char) (hd : d ≠ '-') :
    nlOk ('\n' :: d :: rest) = nlOk (d :: rest) := by
  simp [nlOk, hd]

theorem nlOk_nl_chunk (kw rest : List Char) (d : Char) (kt : List Char)
    (hkw : kw = d :: kt) (hd : d ≠ '-') (hnl : '\n' ∉ kw) :
    nlOk ('\n' :: (kw ++ rest)) = nlOk rest := by
  subst hkw
  show nlOk ('\n' :: d :: (kt ++ rest)) = nlOk rest
  rw [nlOk_nl_cons d (kt ++ rest) hd]
  show nlOk ((d :: kt) ++ rest) = nlOk rest
  exact nlOk_append_noNL _ _ hnl

theorem nlOk_fmHeader (vid vtitle vcat vdate vtags : List Char)
    (h1 : '\n' ∉ vid) (h2 : '\n' ∉ vtitle) (h3 : '\n' ∉ vcat)
    (h4 : '\n' ∉ vdate) (h5 : '\n' ∉ vtags) :
    nlOk (fmHeader vid vtitle vcat vdate vtags) = true := by
  unfold fmHeader
  rw [nlOk_append_noNL _ _ (noNL_chunk "id: ".toList vid (by decide) h1)]
  rw [nlOk_nl_chunk ("title: ".toList ++ vtitle) _ 't'
    ("itle: ".toList ++ vtitle) rfl (by decide)
    (noNL_chunk "title: ".toList vtitle (by decide) h2)]
  rw [nlOk_nl_chunk ("category: ".toList ++ vcat) _ 'c'
    ("ategory: ".toList ++ vcat) rfl (by decide)
    (noNL_chunk "category: ".toList vcat (by decide) h3)]
  rw [nlOk_nl_chunk ("date: ".toList ++ vdate) _ 'd'
    ("ate: ".toList ++ vdate) rfl (by decide)
    (noNL_chunk "date: ".toList vdate (by decide) h4)]
  show nlOk ('\n' :: 't' :: ("ags: ".toList ++ vtags)) = true
  rw [nlOk_nl_cons 't' _ (by decide)]
  show nlOk ("tags: ".toList ++ vtags) = true
  exact nlOk_of_noNL _ (noNL_chunk "tags: ".toList vtags (by decide) h5)

theorem findSub_nl (post : List Char) :
    ∀ pre : List Char, nlOk pre = true →
      findSub ("\n---".toList) (pre ++ ("\n---".toList ++ post)) =
        some (pre, post) := by
  intro pre
  induction pre with
  | nil =>
    intro _
    show findSub ("\n---".toList) ('\n' :: ("---".toList ++ post)) =
      some ([], post)
    simp only [findSub]
    have h1 : ("\n---".toList).isPrefixOf ('\n' :: ("---".toList ++ post)) =
        true := isPrefixOf_append_self ("\n---".toList) post
    rw [if_pos h1]
    rfl
  | cons c pre' ih =>
    intro hok
    have hfacts : nlOk pre' = true ∧
        ("\n---".toList).isPrefixOf
          (c :: (pre' ++ ("\n---".toList ++ post))) = false := by
      by_cases hc : c = '\n'
      · subst hc
        cases pre' with
        | nil => exact absurd hok (by decide)
        | cons d pre'' =>
          have h0 : ((d != '-') && nlOk (d :: pre'')) = true := by
            have he : nlOk ('\n' :: d :: pre'') =
                ((d != '-') && nlOk (d :: pre'')) := by
              simp [nlOk]
            rw [← he]
            exact hok
          rw [Bool.and_eq_true] at h0
          have hd : d ≠ '-' := bne_iff_ne.mp h0.1
          refine ⟨h0.2, ?_⟩
          show (['\n', '-', '-', '-'] : List Char).isPrefixOf
            ('\n' :: d :: (pre'' ++ ("\n---".toList ++ post))) = false
          simp [List.isPrefixOf, Ne.symm hd]
      · refine ⟨?_, ?_⟩
        · have he : nlOk (c :: pre') = nlOk pre' := by simp [nlOk, hc]
          rw [← he]
          exact hok
        · show (['\n', '-', '-', '-'] : List Char).isPrefixOf
            (c :: (pre' ++ ("\n---".toList ++ post))) = false
          simp [List.isPrefixOf, Ne.symm hc]
    show findSub ("\n---".toList) (c :: (pre' ++ ("\n---".toList ++ post))) =
      some (c :: pre', post)
    simp only [findSub]
    rw [if_neg (eqFalse_ne_true hfacts.2)]
    rw [ih hfacts.1]
    rfl

theorem splitOnChar_sep (sep : Char) (b : List Char) :
    ∀ a : List Char, sep ∉ a →
      splitOnChar sep (a ++ sep :: b) = a :: splitOnChar sep b := by
  intro a
  induction a with
  | nil =>
    intro _
    show splitOnChar sep (sep :: b) = [] :: splitOnChar sep b
    simp [splitOnChar]
  | cons c t ih =>
    intro ha
    have hc : c ≠ sep := fun hh => ha (hh ▸ List.mem_cons_self _ _)
    have ht : sep ∉ t := fun hm => ha (List.mem_cons_of_mem _ hm)
    show splitOnChar sep (c :: (t ++ sep :: b)) =
      (c :: t) :: splitOnChar sep b
    simp only [splitOnChar]
    rw [if_neg hc, ih ht]

theorem splitOnChar_noSep (sep : Char) :
    ∀ a : List Char, sep ∉ a → splitOnChar sep a = [a] := by
  intro a
  induction a with
  | nil => intro _; rfl
  | cons c t ih =>
    intro ha
    have hc : c ≠ sep := fun hh => ha (hh ▸ List.mem_cons_self _ _)
    have ht : sep ∉ t := fun hm => ha (List.mem_cons_of_mem _ hm)
    simp only [splitOnChar]
    rw [if_neg hc, ih ht]

theorem splitHeader (vid vtitle vcat vdate vtags : List Char)
    (h1 : '\n' ∉ vid) (h2 : '\n' ∉ vtitle) (h3 : '\n' ∉ vcat)
    (h4 : '\n' ∉ vdate) (h5 : '\n' ∉ vtags) :
    splitOnChar '\n' (fmHeader vid vtitle vcat vdate vtags) =
      ["id: ".toList ++ vid, "title: ".toList ++ vtitle,
       "category: ".toList ++ vcat, "date: ".toList ++ vdate,
       "tags: ".toList ++ vtags] := by
  unfold fmHeader
  rw [splitOnChar_sep '\n' _ _ (noNL_chunk "id: ".toList vid (by decide) h1)]
  rw [splitOnChar_sep '\n' _ _
    (noNL_chunk "title: ".toList vtitle (by decide) h2)]
  rw [splitOnChar_sep '\n' _ _
    (noNL_chunk "category: ".toList vcat (by decide) h3)]
  rw [splitOnChar_sep '\n' _ _
    (noNL_chunk "date: ".toList vdate (by decide) h4)]
  rw [splitOnChar_noSep '\n' _
    (noNL_chunk "tags: ".toList vtags (by decide) h5)]

theorem trim_space_cons (v : List Char) : trim (' ' :: v) = trim v := by
  unfold trim
  rw [List.dropWhile_cons, if_pos (by decide : (' '.isWhitespace = true))]

theorem dots_ne_nil (s : List Char) : s ++ "...".toList ≠ [] := by
  show s ++ ['.', '.', '.'] ≠ []
  simp

theorem jsOrEmpty_of_ne_nil (s : List Char) (h : s ≠ []) : jsOrEmpty s = s := by
  unfold jsOrEmpty
  cases s with
  | nil => exact absurd rfl h
  | cons c t => rfl

theorem not_prefix4_of_not_prefix3 (content : List Char)
    (h : ("---".toList).isPrefixOf content = false) :
    ("---\n".toList).isPrefixOf content = false := by
  rcases content with _ | ⟨a, _ | ⟨b, _ | ⟨c, rest⟩⟩⟩ <;>
    simp [List.isPrefixOf] at h ⊢ <;> tauto

theorem escapeXml_append (a b : List Char) :
    escapeXml (a ++ b) = escapeXml a ++ escapeXml b := by
  simp [escapeXml, replaceChar]

theorem escapeXml_single (c : Char) : escapeXml [c] = escChar c := by
  by_cases h1 : c = '&'
  · subst h1; decide
  by_cases h2 : c = '<'
  · subst h2; decide
  by_cases h3 : c = '>'
  · subst h3; decide
  by_cases h4 : c = '"'
  · subst h4; decide
  by_cases h5 : c = Char.ofNat 39
  · subst h5; decide
  simp [escapeXml, replaceChar, escChar, h1, h2, h3, h4, h5]

theorem escapeXml_eq_spec (s : List Char) : escapeXml s = escapeXmlSpec s := by
  induction s with
  | nil => rfl
  | cons c t ih =>
    have hsplit : escapeXml (c :: t) = escapeXml [c] ++ escapeXml t := by
      simpa using escapeXml_append [c] t
    rw [hsplit, escapeXml_single, ih]
    simp [escapeXmlSpec]

theorem escChar_no_special (c : Char) :
    '<' ∉ escChar c ∧ '>' ∉ escChar c ∧ '"' ∉ escChar c ∧
      Char.ofNat 39 ∉ escChar c := by
  by_cases h1 : c = '&'
  · subst h1; decide
  by_cases h2 : c = '<'
  · subst h2; decide
  by_cases h3 : c = '>'
  · subst h3; decide
  by_cases h4 : c = '"'
  · subst h4; decide
  by_cases h5 : c = Char.ofNat 39
  · subst h5; decide
  have he : escChar c = [c] := by simp [escChar, h1, h2, h3, h4, h5]
  rw [he]
  refine ⟨?_, ?_, ?_, ?_⟩ <;> simp <;> intro hh <;>
    first
      | exact h2 hh.symm
      | exact h3 hh.symm
      | exact h4 hh.symm
      | exact h5 hh.symm

theorem not_mem_escapeXmlSpec (x : Char) (h : ∀ c, x ∉ escChar c)
    (s : List Char) : x ∉ escapeXmlSpec s := by
  unfold escapeXmlSpec
  intro hm
  rw [List.mem_flatten] at hm
  obtain ⟨l, hl, hxl⟩ := hm
  rw [List.mem_map] at hl
  obtain ⟨c, _, rfl⟩ := hl
  exact h c hxl

theorem contains_of_mem (line : List Char) (c : Char) (h : c ∈ line) :
    line.contains c = true := by simp [h]

theorem takeWhile_colon (k v : List Char) (hk : ':' ∉ k) :
    (k ++ ':' :: v).takeWhile (fun c => c != ':') = k := by
  induction k with
  | nil =>
    show (':' :: v).takeWhile (fun c => c != ':') = []
    simp [List.takeWhile_cons]
  | cons c t ih =>
    have hc : c ≠ ':' := fun hh => hk (hh ▸ List.mem_cons_self _ _)
    have ht : ':' ∉ t := fun hm => hk (List.mem_cons_of_mem _ hm)
    show ((c :: (t ++ ':' :: v)).takeWhile (fun c => c != ':')) = c :: t
    rw [List.takeWhile_cons]
    simp [hc, ih ht]

theorem drop_key (k v : List Char) : (k ++ ':' :: v).drop (k.length + 1) = v := by
  induction k with
  | nil => rfl
  | cons c t ih =>
    show ((c :: (t ++ ':' :: v)).drop (t.length + 1 + 1)) = v
    rw [List.drop_succ_cons]
    exact ih

theorem parseLine_split (k v : List Char) (hk : ':' ∉ k) :
    parseLine (k ++ ':' :: v) = some (trim k, trim v) := by
  have hc : (k ++ ':' :: v).contains ':' = true :=
    contains_of_mem _ _ (List.mem_append_right _ (List.mem_cons_self _ _))
  unfold parseLine
  rw [if_pos hc, takeWhile_colon k v hk]
  show some (trim k, trim ((k ++ ':' :: v).drop (k.length + 1))) =
    some (trim k, trim v)
  rw [drop_key k v]

theorem parseLine_none (line : List Char) (h : ':' ∉ line) :
    parseLine line = none := by
  unfold parseLine
  rw [if_neg (fun hh => h (by simpa using hh))]

theorem parseLine_header (key v : List Char) (hk : ':' ∉ key)
    (hv : trim v = v) :
    parseLine (key ++ ':' :: (' ' :: v)) = some (trim key, v) := by
  rw [parseLine_split key (' ' :: v) hk, trim_space_cons, hv]

theorem lookup_cons_self (k v : List Char)
    (es : List (List Char × List Char)) :
    List.lookup k ((k, v) :: es) = some v := by
  simp [List.lookup]

theorem lookup_cons_ne (a k v : List Char)
    (es : List (List Char × List Char)) (h : ¬(a = k)) :
    List.lookup a ((k, v) :: es) = List.lookup a es := by
  have hb : (a == k) = false := beq_eq_false_iff_ne.mpr h
  simp [List.lookup, hb]

theorem fmInsert_nil (kv : List Char × List Char) : fmInsert [] kv = [kv] :=
  rfl

theorem fmInsert_ne (k' v' : List Char) (es : List (List Char × List Char))
    (k v : List Char) (h : ¬(k' = k)) :
    fmInsert ((k', v') :: es) (k, v) = (k', v') :: fmInsert es (k, v) := by
  simp only [fmInsert]
  rw [if_neg h]

theorem buildFM_header (vid vtitle vcat vdate vtags : List Char)
    (h1 : trim vid = vid) (h2 : trim vtitle = vtitle) (h3 : trim vcat = vcat)
    (h4 : trim vdate = vdate) (h5 : trim vtags = vtags) :
    buildFM ["id: ".toList ++ vid, "title: ".toList ++ vtitle,
             "category: ".toList ++ vcat, "date: ".toList ++ vdate,
             "tags: ".toList ++ vtags] =
      [("id".toList, vid), ("title".toList, vtitle),
       ("category".toList, vcat), ("date".toList, vdate),
       ("tags".toList, vtags)] := by
  have e1 : ("id: ".toList ++ vid) = "id".toList ++ ':' :: (' ' :: vid) := rfl
  have e2 : ("title: ".toList ++ vtitle) =
    "title".toList ++ ':' :: (' ' :: vtitle) := rfl
  have e3 : ("category: ".toList ++ vcat) =
    "category".toList ++ ':' :: (' ' :: vcat) := rfl
  have e4 : ("date: ".toList ++ vdate) =
    "date".toList ++ ':' :: (' ' :: vdate) := rfl
  have e5 : ("tags: ".toList ++ vtags) =
    "tags".toList ++ ':' :: (' ' :: vtags) := rfl
  rw [e1, e2, e3, e4, e5]
  unfold buildFM
  simp only [List.foldl_cons, List.foldl_nil]
  rw [show fmStep [] ("id".toList ++ ':' :: (' ' :: vid)) =
      [("id".toList, vid)] from by
    unfold fmStep
    rw [parseLine_header _ _ (by decide) h1,
      show trim ("id".toList) = "id".toList from by decide]
    rfl]
  rw [show fmStep [("id".toList, vid)]
      ("title".toList ++ ':' :: (' ' :: vtitle)) =
      [("id".toList, vid), ("title".toList, vtitle)] from by
    unfold fmStep
    rw [parseLine_header _ _ (by decide) h2,
      show trim ("title".toList) = "title".toList from by decide]
    show fmInsert [("id".toList, vid)] ("title".toList, vtitle) = _
    rw [fmInsert_ne "id".toList vid [] "title".toList vtitle (by decide),
      fmInsert_nil]]
  rw [show fmStep [("id".toList, vid), ("title".toList, vtitle)]
      ("category".toList ++ ':' :: (' ' :: vcat)) =
      [("id".toList, vid), ("title".toList, vtitle),
       ("category".toList, vcat)] from by
    unfold fmStep
    rw [parseLine_header _ _ (by decide) h3,
      show trim ("category".toList) = "category".toList from by decide]
    show fmInsert [("id".toList, vid), ("title".toList, vtitle)]
      ("category".toList, vcat) = _
    rw [fmInsert_ne "id".toList vid _ "category".toList vcat (by decide),
      fmInsert_ne "title".toList vtitle [] "category".toList vcat
        (by decide),
      fmInsert_nil]]
  rw [show fmStep [("id".toList, vid), ("title".toList, vtitle),
      ("category".toList, vcat)] ("date".toList ++ ':' :: (' ' :: vdate)) =
      [("id".toList, vid), ("title".toList, vtitle),
       ("category".toList, vcat), ("date".toList, vdate)] from by
    unfold fmStep
    rw [parseLine_header _ _ (by decide) h4,
      show trim ("date".toList) = "date".toList from by decide]
    show fmInsert [("id".toList, vid), ("title".toList, vtitle),
      ("category".toList, vcat)] ("date".toList, vdate) = _
    rw [fmInsert_ne "id".toList vid _ "date".toList vdate (by decide),
      fmInsert_ne "title".toList vtitle _ "date".toList vdate (by decide),
      fmInsert_ne "category".toList vcat [] "date".toList vdate
        (by decide),
      fmInsert_nil]]
  rw [show fmStep [("id".toList, vid), ("title".toList, vtitle),
      ("category".toList, vcat), ("date".toList, vdate)]
      ("tags".toList ++ ':' :: (' ' :: vtags)) =
      [("id".toList, vid), ("title".toList, vtitle),
       ("category".toList, vcat), ("date".toList, vdate),
       ("tags".toList, vtags)] from by
    unfold fmStep
    rw [parseLine_header _ _ (by decide) h5,
      show trim ("tags".toList) = "tags".toList from by decide]
    show fmInsert [("id".toList, vid), ("title".toList, vtitle),
      ("category".toList, vcat), ("date".toList, vdate)]
      ("tags".toList, vtags) = _
    rw [fmInsert_ne "id".toList vid _ "tags".toList vtags (by decide),
      fmInsert_ne "title".toList vtitle _ "tags".toList vtags (by decide),
      fmInsert_ne "category".toList vcat _ "tags".toList vtags
        (by decide),
      fmInsert_ne "date".toList vdate [] "tags".toList vtags (by decide),
      fmInsert_nil]]

theorem buildFM_skip (docs1 docs2 : List (List Char)) (bad : List Char)
    (hbad : ':' ∉ bad) :
    buildFM (docs1 ++ bad :: docs2) = buildFM (docs1 ++ docs2) := by
  unfold buildFM
  rw [List.foldl_append, List.foldl_append, List.foldl_cons]
  have hstep : fmStep (List.foldl fmStep [] docs1) bad =
      List.foldl fmStep [] docs1 := by
    unfold fmStep
    rw [parseLine_none bad hbad]
  rw [hstep]

theorem mem_sortInsert {α : Type} (cmp : α → α → Int) (a x : α) :
    ∀ l : List α, x ∈ sortInsert cmp a l → x = a ∨ x ∈ l := by
  intro l
  induction l with
  | nil =>
    intro h
    simp [sortInsert] at h
    exact Or.inl h
  | cons y ys ih =>
    intro h
    simp only [sortInsert] at h
    by_cases hc : cmp a y < 0
    · rw [if_pos hc] at h
      rcases List.mem_cons.mp h with h | h
      · exact Or.inl h
      · exact Or.inr h
    · rw [if_neg hc] at h
      rcases List.mem_cons.mp h with h | h
      · exact Or.inr (h ▸ List.mem_cons_self _ _)
      · rcases ih h with h1 | h1
        · exact Or.inl h1
        · exact Or.inr (List.mem_cons_of_mem _ h1)

theorem mem_sortByCmp {α : Type} (cmp : α → α → Int) (x : α) :
    ∀ l : List α, x ∈ sortByCmp cmp l → x ∈ l := by
  intro l
  induction l with
  | nil => intro h; simp [sortByCmp] at h
  | cons y ys ih =>
    intro h
    simp only [sortByCmp] at h
    rcases mem_sortInsert cmp y x _ h with h1 | h1
    · exact h1 ▸ List.mem_cons_self _ _
    · exact List.mem_cons_of_mem _ (ih h1)

theorem chain'_sortInsert {α : Type} (R : α → α → Prop) (cmp : α → α → Int)
    (a : α) :
    ∀ l : List α, List.Chain' R l →
      (∀ b ∈ l, cmp a b < 0 → R a b) →
      (∀ b ∈ l, 0 ≤ cmp a b → R b a) →
      List.Chain' R (sortInsert cmp a l) := by
  intro l
  induction l with
  | nil =>
    intro _ _ _
    simp [sortInsert]
  | cons y ys ih =>
    intro hc h1 h2
    simp only [sortInsert]
    by_cases hcy : cmp a y < 0
    · rw [if_pos hcy]
      exact List.chain'_cons.mpr ⟨h1 y (List.mem_cons_self _ _) hcy, hc⟩
    · rw [if_neg hcy]
      have hys : List.Chain' R (sortInsert cmp a ys) :=
        ih hc.tail (fun b hb => h1 b (List.mem_cons_of_mem _ hb))
          (fun b hb => h2 b (List.mem_cons_of_mem _ hb))
      rw [List.chain'_cons']
      refine ⟨?_, hys⟩
      intro z hz
      cases ys with
      | nil =>
        simp [sortInsert] at hz
        subst hz
        exact h2 y (List.mem_cons_self _ _) (Int.not_lt.mp hcy)
      | cons w ws =>
        by_cases hcw : cmp a w < 0
        · simp [sortInsert, hcw] at hz
          subst hz
          exact h2 y (List.mem_cons_self _ _) (Int.not_lt.mp hcy)
        · simp [sortInsert, hcw] at hz
          subst hz
          exact hc.rel_head

theorem rss_sorted_aux (getTime : List Char → Int) :
    ∀ posts : List RssPost, (∀ p ∈ posts, hasDate p.1 = true) →
      List.Chain' (fun a b : RssPost =>
          getTime (b.1.date.getD []) ≤ getTime (a.1.date.getD []))
        (sortByCmp (rssCompare getTime) posts) := by
  intro posts
  induction posts with
  | nil => intro _; simp [sortByCmp]
  | cons p ps ih =>
    intro hd
    have hdp : hasDate p.1 = true := hd p (List.mem_cons_self _ _)
    have hdps : ∀ q ∈ ps, hasDate q.1 = true :=
      fun q hq => hd q (List.mem_cons_of_mem _ hq)
    simp only [sortByCmp]
    refine chain'_sortInsert _ (rssCompare getTime) p _ (ih hdps) ?_ ?_
    · intro b hb hcb
      have hdb : hasDate b.1 = true := hdps b (mem_sortByCmp _ _ _ hb)
      unfold rssCompare at hcb
      rw [hdp, hdb] at hcb
      simp at hcb
      omega
    · intro b hb hcb
      have hdb : hasDate b.1 = true := hdps b (mem_sortByCmp _ _ _ hb)
      unfold rssCompare at hcb
      rw [hdp, hdb] at hcb
      simp at hcb
      omega

/-! ## Claims -/

/-- C4: inside the front-matter header, each line is split at its first
colon into a key and a value, both trimmed of surrounding whitespace before
being stored; a line with no colon yields nothing and is skipped by the
`forEach` loop without affecting the extraction of the remaining lines. -/
theorem c4_header_lines :
    (∀ k v : List Char, ':' ∉ k →
        parseLine (k ++ ':' :: v) = some (trim k, trim v)) ∧
      (∀ line : List Char, ':' ∉ line → parseLine line = none) ∧
      (∀ (docs1 docs2 : List (List Char)) (bad : List Char), ':' ∉ bad →
        buildFM (docs1 ++ bad :: docs2) = buildFM (docs1 ++ docs2)) :=
  ⟨parseLine_split, parseLine_none, buildFM_skip⟩

/-- C4 (witness): the theorem applied to the line `"id: x"` (split and
trimmed), to the colon-free line `"nocolon"` (skipped), and to a header in
which such a line sits between two well-formed lines. -/
theorem c4_witness :
    ((':' : Char) ∉ "id".toList) ∧
      parseLine ("id".toList ++ ':' :: " x".toList) =
        some (trim ("id".toList), trim (" x".toList)) ∧
      parseLine ("nocolon".toList) = none ∧
      buildFM (["id: a".toList] ++ "oops".toList :: ["title: b".toList]) =
        buildFM (["id: a".toList] ++ ["title: b".toList]) :=
  ⟨by decide, c4_header_lines.1 _ _ (by decide),
   c4_header_lines.2.1 _ (by decide),
   c4_header_lines.2.2 _ _ _ (by decide)⟩

/-- C6: for any post collection in which every post has a (truthy) date, the
post sequence that `generateRSS` emits as RSS items — the output of
`posts.sort` — is ordered by parsed date descending: every adjacent pair has
the earlier item's timestamp at least the later item's, for any timestamp
interpretation `getTime` of the date strings. -/
theorem c6_rss_sorted (getTime : List Char → Int) (posts : List RssPost)
    (hd : ∀ p ∈ posts, hasDate p.1 = true) :
    List.Chain' (fun a b : RssPost =>
        getTime (b.1.date.getD []) ≤ getTime (a.1.date.getD []))
      (rssSortPosts getTime posts) := by
  unfold rssSortPosts
  exact rss_sorted_aux getTime posts hd

/-- C6 (witness): the theorem applied to a concrete two-post collection with
dates interpreted by string length. -/
theorem c6_witness :
    (∀ p ∈ [((⟨"a".toList, [], [], some ("ddd".toList), none⟩ : PostMeta),
              ([] : List Char)),
            ((⟨"b".toList, [], [], some ("d".toList), none⟩ : PostMeta),
              ([] : List Char))], hasDate p.1 = true) ∧
      List.Chain' (fun a b : RssPost =>
          (fun s : List Char => (s.length : Int)) (b.1.date.getD []) ≤
            (fun s : List Char => (s.length : Int)) (a.1.date.getD []))
        (rssSortPosts (fun s : List Char => (s.length : Int))
          [((⟨"a".toList, [], [], some ("ddd".toList), none⟩ : PostMeta),
             ([] : List Char)),
           ((⟨"b".toList, [], [], some ("d".toList), none⟩ : PostMeta),
             ([] : List Char))]) :=
  ⟨by decide, c6_rss_sorted (fun s : List Char => (s.length : Int)) _ (by decide)⟩

/-- C2 (counterexample): the claim says the RSS excerpt *equals* the first
qualifying paragraph truncated to 200 characters with markup characters
stripped; on the document `"Hello world"` that value is `"Hello world"`, but
`getExcerpt` returns `"Hello world..."` — the code appends the literal
`'...'` — so the claim as stated is false. -/
theorem c2_counterexample :
    (splitNN (stripFM ("Hello world".toList))).find? isExcerptPara =
        some ("Hello world".toList) ∧
      getExcerpt ("Hello world".toList) ≠
        stripMarkup (("Hello world".toList).take 200) := by decide

/-- C2 (amended): whenever some blank-line-separated segment of the body
qualifies (non-blank, not starting with `#` or `!`), the RSS excerpt equals
the first such segment truncated to 200 characters, with the markup
characters `#`, `*`, backquote, `[`, `]` stripped, and with the literal
suffix `'...'` appended; the emitted excerpt is at most 203 characters. -/
theorem c2_excerpt (content p : List Char)
    (h : (splitNN (stripFM content)).find? isExcerptPara = some p) :
    getExcerpt content = stripMarkup (p.take 200) ++ "...".toList ∧
      (getExcerpt content).length ≤ 203 := by
  have he : getExcerpt content = stripMarkup (p.take 200) ++ "...".toList := by
    unfold getExcerpt excerptOfBody
    rw [h]
    exact jsOrEmpty_of_ne_nil _ (dots_ne_nil _)
  refine ⟨he, ?_⟩
  rw [he]
  have h1 : (stripMarkup (p.take 200)).length ≤ 200 := by
    calc (stripMarkup (p.take 200)).length ≤ (p.take 200).length :=
          List.length_filter_le _ _
    _ ≤ 200 := List.length_take_le _ _
  have h2 : ("...".toList).length = 3 := rfl
  rw [List.length_append, h2]
  omega

/-- C2 (witness): the amended theorem applied to the document `"Hi"`. -/
theorem c2_witness :
    ((splitNN (stripFM ("Hi".toList))).find? isExcerptPara =
        some ("Hi".toList)) ∧
      getExcerpt ("Hi".toList) =
        stripMarkup (("Hi".toList).take 200) ++ "...".toList :=
  ⟨by decide, (c2_excerpt ("Hi".toList) ("Hi".toList) (by decide)).1⟩

/-- C3 (counterexample): for the document `"---\nid: x"` — an opening `---`
line with no closing delimiter — `parseFrontMatter` returns `none` (no
metadata record, partial or otherwise), and the `generateRSS` document loop
drops the document from the post list instead of including it. -/
theorem c3_counterexample :
    parseFrontMatter ("---\nid: x".toList) = none ∧
      collectPosts [("---\nid: x".toList)] = [] := by decide

/-- C3 (amended): for a document with an opening `---` delimiter but no
closing `---`, parsing is non-fatal — `parseFrontMatter` totally returns
`none` rather than raising — but the document yields no metadata record and
is excluded from the RSS post list; the rest of the corpus is processed
unchanged. -/
theorem c3_unterminated (content : List Char)
    (hpre : ("---\n".toList).isPrefixOf content = true)
    (hnc : findSub ("\n---".toList) (content.drop 4) = none) :
    parseFrontMatter content = none ∧
      ∀ docs1 docs2 : List (List Char),
        collectPosts (docs1 ++ content :: docs2) =
          collectPosts docs1 ++ collectPosts docs2 := by
  have hp : parseFrontMatter content = none := by
    unfold parseFrontMatter
    rw [hpre, hnc]
    rfl
  refine ⟨hp, fun docs1 docs2 => ?_⟩
  unfold collectPosts
  rw [List.filterMap_append]
  congr 1
  rw [List.filterMap_cons]
  simp [hp]

/-- C3 (witness): the amended theorem applied to the unterminated document
`"---\nid: x"` inside a two-document corpus. -/
theorem c3_witness :
    parseFrontMatter ("---\nid: x".toList) = none ∧
      collectPosts ([] ++ ("---\nid: x".toList) :: []) =
        collectPosts [] ++ collectPosts [] :=
  ⟨(c3_unterminated _ (by decide) (by decide)).1,
   (c3_unterminated _ (by decide) (by decide)).2 [] []⟩

/-- C5: for a document that does not open with a front-matter delimiter,
`parseFrontMatter` yields no metadata (`none`, the code's empty/absent
metadata result), the excerpt substitution leaves the input unchanged, and
the excerpt is therefore derived from the unmodified full input. -/
theorem c5_no_front_matter (content : List Char)
    (h : ("---".toList).isPrefixOf content = false) :
    parseFrontMatter content = none ∧ stripFM content = content ∧
      getExcerpt content = excerptOfBody content := by
  have h4 : ("---\n".toList).isPrefixOf content = false :=
    not_prefix4_of_not_prefix3 content h
  have h2 : stripFM content = content := by
    unfold stripFM
    rw [h]
    rfl
  have h1 : parseFrontMatter content = none := by
    unfold parseFrontMatter
    rw [h4]
    rfl
  refine ⟨h1, h2, ?_⟩
  show excerptOfBody (stripFM content) = excerptOfBody content
  rw [h2]

/-- C5 (witness): the theorem applied to the plain document `"Hello"`. -/
theorem c5_witness :
    ("---".toList).isPrefixOf ("Hello".toList) = false ∧
      parseFrontMatter ("Hello".toList) = none ∧
      stripFM ("Hello".toList) = "Hello".toList :=
  ⟨by decide, (c5_no_front_matter ("Hello".toList) (by decide)).1,
   (c5_no_front_matter ("Hello".toList) (by decide)).2.1⟩

/-- C7: whenever the classifier produces a block whose `level` field is
present, its value is 1, 2 or 3; in particular a line with four or more `#`
characters falls back to a paragraph and carries no `level` at all. -/
theorem c7_heading_level (line : List Char) (l : Nat)
    (h : (classifyLine line).level = some l) : l = 1 ∨ l = 2 ∨ l = 3 := by
  unfold classifyLine at h
  split at h
  · simp [mkBlock] at h
  · split at h
    · rename_i hcond
      have hl : min (leadHashes line) 3 = l := by simpa using h
      simp only [Bool.and_eq_true, decide_eq_true_eq] at hcond
      omega
    · simp [mkBlock] at h

/-- C7 (witness): the theorem applied to the heading line `"## Title"`,
whose classified level is 2. -/
theorem c7_witness :
    (classifyLine ("## Title".toList)).level = some 2 ∧
      (2 = 1 ∨ 2 = 2 ∨ 2 = 3) :=
  ⟨by decide, c7_heading_level ("## Title".toList) 2 (by decide)⟩

/-- C8: after the metadata effect of `Index` runs for a requested `postId`,
the 404 state is rendered exactly when the id occurs in no loaded metadata
entry (and is not set when the id does occur); and the (spec-modelled)
`loadPostById` lookup signals absence as a typed `none` exactly in the same
situation, rather than by an exception — the model is a total function. -/
theorem c8_not_found (metadata : List PostMeta) (pid : List Char)
    (st : IndexState) :
    renders404 (indexMetadataLoad metadata (some pid) st) =
        !(metadata.any (fun p => p.id == pid)) ∧
      (loadPostById metadata pid = none ↔
        metadata.any (fun p => p.id == pid) = false) := by
  constructor
  · unfold renders404 indexMetadataLoad
    by_cases h : metadata.any (fun p => p.id == pid) = true
    · simp [h]
    · simp [h]
  · unfold loadPostById
    simp [List.find?_eq_none, List.any_eq_false]

/-- C9: `escapeXml` is exactly per-character entity substitution — every
occurrence of the five special characters is replaced by its entity and no
replacement is itself re-escaped (the ampersand pass runs first) — and its
output contains none of the characters `<`, `>`, `"`, `'`. -/
theorem c9_escapeXml (s : List Char) :
    escapeXml s = escapeXmlSpec s ∧
      '<' ∉ escapeXml s ∧ '>' ∉ escapeXml s ∧ '"' ∉ escapeXml s ∧
      Char.ofNat 39 ∉ escapeXml s := by
  have hs := escapeXml_eq_spec s
  refine ⟨hs, ?_, ?_, ?_, ?_⟩ <;> rw [hs]
  · exact not_mem_escapeXmlSpec _ (fun c => (escChar_no_special c).1) s
  · exact not_mem_escapeXmlSpec _ (fun c => (escChar_no_special c).2.1) s
  · exact not_mem_escapeXmlSpec _ (fun c => (escChar_no_special c).2.2.1) s
  · exact not_mem_escapeXmlSpec _ (fun c => (escChar_no_special c).2.2.2) s

/-- C10: when no blank-line-separated segment of the body qualifies as an
excerpt paragraph, `getExcerpt` returns the literal string `"undefined..."`
(JavaScript evaluates `undefined + '...'` to that string); and since the
string concatenation with `'...'` is never empty, the `|| ''` fallback is
unreachable — the excerpt is never the empty string, for any input. -/
theorem c10_undefined_excerpt (content : List Char) :
    ((splitNN (stripFM content)).find? isExcerptPara = none →
      getExcerpt content = "undefined...".toList) ∧
      getExcerpt content ≠ [] := by
  constructor
  · intro h
    unfold getExcerpt excerptOfBody
    rw [h]
    decide
  · unfold getExcerpt excerptOfBody
    cases hf : (splitNN (stripFM content)).find? isExcerptPara with
    | none => decide
    | some p =>
      rw [jsOrEmpty_of_ne_nil _ (dots_ne_nil _)]
      exact dots_ne_nil _

/-- C10 (witness): the theorem applied to the empty document, whose body has
no qualifying segment. -/
theorem c10_witness :
    ((splitNN (stripFM ([] : List Char))).find? isExcerptPara = none) ∧
      getExcerpt ([] : List Char) = "undefined...".toList :=
  ⟨by decide, (c10_undefined_excerpt []).1 (by decide)⟩

/-- C1: for a document declaring the five known front-matter fields (each
value a single line already free of surrounding whitespace),
`parseFrontMatter` returns exactly the declared values, with the `tags`
value split on commas and each resulting tag trimmed. -/
theorem c1_front_matter_roundtrip (vid vtitle vcat vdate vtags body : List Char)
    (hid : '\n' ∉ vid ∧ trim vid = vid)
    (htitle : '\n' ∉ vtitle ∧ trim vtitle = vtitle)
    (hcat : '\n' ∉ vcat ∧ trim vcat = vcat)
    (hdate : '\n' ∉ vdate ∧ trim vdate = vdate)
    (htags : '\n' ∉ vtags ∧ trim vtags = vtags) :
    parseFrontMatter (mkDoc vid vtitle vcat vdate vtags body) =
      some ⟨vid, vtitle, vcat, some vdate,
            some ((splitOnChar ',' vtags).map trim)⟩ := by
  unfold parseFrontMatter mkDoc
  rw [if_pos (isPrefixOf_append_self _ _)]
  rw [show (4 : Nat) = ("---\n".toList).length from rfl, List.drop_left]
  rw [findSub_nl body _
    (nlOk_fmHeader _ _ _ _ _ hid.1 htitle.1 hcat.1 hdate.1 htags.1)]
  dsimp only
  rw [splitHeader _ _ _ _ _ hid.1 htitle.1 hcat.1 hdate.1 htags.1]
  rw [buildFM_header _ _ _ _ _ hid.2 htitle.2 hcat.2 hdate.2 htags.2]
  rw [lookup_cons_self "id".toList vid _]
  rw [lookup_cons_ne "title".toList "id".toList vid _ (by decide),
    lookup_cons_self "title".toList vtitle _]
  rw [lookup_cons_ne "category".toList "id".toList vid _ (by decide),
    lookup_cons_ne "category".toList "title".toList vtitle _ (by decide),
    lookup_cons_self "category".toList vcat _]
  rw [lookup_cons_ne "date".toList "id".toList vid _ (by decide),
    lookup_cons_ne "date".toList "title".toList vtitle _ (by decide),
    lookup_cons_ne "date".toList "category".toList vcat _ (by decide),
    lookup_cons_self "date".toList vdate _]
  rw [lookup_cons_ne "tags".toList "id".toList vid _ (by decide),
    lookup_cons_ne "tags".toList "title".toList vtitle _ (by decide),
    lookup_cons_ne "tags".toList "category".toList vcat _ (by decide),
    lookup_cons_ne "tags".toList "date".toList vdate _ (by decide),
    lookup_cons_self "tags".toList vtags _]
  rfl

/-- C1 (witness): the theorem applied to a concrete five-field document. -/
theorem c1_witness :
    (('\n' ∉ "rust-cli".toList) ∧ trim ("rust-cli".toList) = "rust-cli".toList) ∧
      parseFrontMatter (mkDoc ("rust-cli".toList) ("Rust CLI".toList)
          ("Systems".toList) ("February 5, 2026".toList)
          ("Rust, CLI".toList) ("\nbody".toList)) =
        some ⟨"rust-cli".toList, "Rust CLI".toList, "Systems".toList,
              some ("February 5, 2026".toList),
              some ((splitOnChar ',' ("Rust, CLI".toList)).map trim)⟩ :=
  ⟨⟨by decide, by decide⟩,
   c1_front_matter_roundtrip _ _ _ _ _ _ ⟨by decide, by decide⟩
     ⟨by decide, by decide⟩ ⟨by decide, by decide⟩ ⟨by decide, by decide⟩
     ⟨by decide, by decide⟩⟩

/-- Sanity evaluation of the embedding on a concrete five-field document. -/
theorem sample_parse :
    parseFrontMatter ("---\nid: a\ntitle: T\ncategory: C\ndate: D\ntags: x, y\n---\nbody".toList) =
      some ⟨"a".toList, "T".toList, "C".toList, some ("D".toList),
            some ["x".toList, "y".toList]⟩ := by decide

/-- Sanity evaluation: the excerpt skips the heading paragraph and strips
inline markup. -/
theorem sample_excerpt :
    getExcerpt ("---\nid: a\n---\n# H\n\nHello *world*\n\nmore".toList) =
      "Hello world...".toList := by decide

/-- Sanity evaluation: a body with no qualifying paragraph. -/
theorem sample_excerpt_fallback :
    getExcerpt ("# only a heading".toList) = "undefined...".toList := by decide

/-- Sanity evaluation of the XML escaper. -/
theorem sample_escape :
    escapeXml ("a<b&c".toList) = "a&lt;b&amp;c".toList := by decide
